import Mathlib

/-!
Verification development for the summa-pdf-backend document service
(`src/server.js`).  JavaScript strings are modelled as lists of Unicode
scalar characters (`Str`), stateful handler code as explicit state
passing, fallible external calls as `Except` / `Option` outcomes, and
the process-wide `Map` cache as an association list.
-/

deriving instance DecidableEq for Except

/-- JavaScript strings, modelled as lists of Unicode scalar characters. -/
abbrev Str := List Char

/-- The character class `\s` of JavaScript regular expressions (also the
set removed by `String.prototype.trim`). -/
def jsWs (c : Char) : Bool :=
  c = '\t' || c = '\n' || c = '\u000B' || c = '\u000C' || c = '\r' || c = ' ' ||
  c = '\u00A0' || c = '\u1680' || ('\u2000' ≤ c && c ≤ '\u200A') || c = '\u2028' ||
  c = '\u2029' || c = '\u202F' || c = '\u205F' || c = '\u3000' || c = '\uFEFF'

/-- The character class `[a-z]`. -/
def isLowerC (c : Char) : Bool := 'a' ≤ c && c ≤ 'z'

/-- The character class `[A-Z]`. -/
def isUpperC (c : Char) : Bool := 'A' ≤ c && c ≤ 'Z'

/-- The character class `[a-zA-Z]`. -/
def isLetterC (c : Char) : Bool := isLowerC c || isUpperC c

/-- The character class `\d` = `[0-9]`. -/
def isDigitC (c : Char) : Bool := '0' ≤ c && c ≤ '9'

/-- The character class `[.,;:]` used by the punctuation-spacing rule of
`cleanText`. -/
def isPunctC (c : Char) : Bool := c = '.' || c = ',' || c = ';' || c = ':'

/-- The character class `[^\s]`. -/
def isNonWs (c : Char) : Bool := !jsWs c

/-- The two bullet characters matched by `cleanText`'s bullet rule
`/•|/g` (U+2022 BULLET and the private-use bullet U+F0A7). -/
def isBullet (c : Char) : Bool := c = '\u2022' || c = '\uF0A7'

/-- ASCII lowering, the effect of `String.prototype.toLowerCase` on the
characters relevant here (suffix tests against `".pdf"` / `".docx"`). -/
def toLowerAscii (c : Char) : Char :=
  if isUpperC c then Char.ofNat (c.toNat + 32) else c

/-- `fileName.toLowerCase()` (`src/server.js:432`). -/
def jsToLower (s : Str) : Str := s.map toLowerAscii

/-- `s.endsWith(suffix)`. -/
def strEndsWith (s suffix : Str) : Bool := suffix.isSuffixOf s

/-- `.replace(/\n+/g, "\n")` (`src/server.js:271`): each maximal run of
newlines collapses to a single newline (keeping the last of the run,
which is the same character as the replacement). -/
def collapseNewlines : Str → Str
  | [] => []
  | [c] => [c]
  | a :: b :: rest =>
    if a = '\n' && b = '\n' then collapseNewlines (b :: rest)
    else a :: collapseNewlines (b :: rest)

/-- A global replace of the shape `.replace(/(P)(Q)/g, "$1 $2")`: a space
is inserted between a `p`-character and an immediately following
`q`-character.  After a match the scan resumes after the matched pair,
exactly as JavaScript's global `replace` does (`src/server.js:272-274`
and `:276`). -/
def spaceBetween (p q : Char → Bool) : Str → Str
  | [] => []
  | [a] => [a]
  | a :: b :: rest =>
    if p a && q b then a :: ' ' :: b :: spaceBetween p q rest
    else a :: spaceBetween p q (b :: rest)

/-- `.replace(/•|/g, "- ")` (`src/server.js:275`): each bullet
character is replaced by a hyphen and a space. -/
def replaceBullets : Str → Str
  | [] => []
  | c :: rest =>
    if isBullet c then '-' :: ' ' :: replaceBullets rest
    else c :: replaceBullets rest

/-- Worker for `.replace(/\s{2,}/g, " ")` (`src/server.js:277`): each
maximal run of two or more whitespace characters becomes a single space;
a lone whitespace character is kept as itself.  `prevWs` records whether
the current character continues a whitespace run already seen. -/
def collapseWsAux (prevWs : Bool) : Str → Str
  | [] => []
  | c :: rest =>
    if jsWs c then
      match rest with
      | [] => if prevWs then [' '] else [c]
      | d :: _ =>
        if jsWs d then collapseWsAux true rest
        else (if prevWs then ' ' else c) :: collapseWsAux false rest
    else c :: collapseWsAux false rest

/-- `.replace(/\s{2,}/g, " ")` (`src/server.js:277`). -/
def collapseWs (l : Str) : Str := collapseWsAux false l

/-- Removal of the trailing whitespace run (the right half of
`String.prototype.trim`). -/
def dropTrailWs : Str → Str
  | [] => []
  | c :: rest =>
    match dropTrailWs rest with
    | [] => if jsWs c then [] else [c]
    | d :: t => c :: d :: t

/-- `String.prototype.trim` (`src/server.js:278`). -/
def jsTrim (l : Str) : Str := dropTrailWs (l.dropWhile jsWs)

/-- The text normalizer `cleanText` (`src/server.js:268-279`): guard
`if (!text) return ""` for the empty string, then the seven chained
`.replace` calls and the final `.trim()`, in source order. -/
def cleanText (text : Str) : Str :=
  if text = [] then []
  else
    jsTrim (collapseWs (spaceBetween isPunctC isNonWs (replaceBullets
      (spaceBetween isDigitC isLetterC (spaceBetween isLetterC isDigitC
        (spaceBetween isLowerC isUpperC (collapseNewlines text)))))))

/-- `cleanText` as called on a possibly null/undefined argument: the
guard `if (!text) return ""` maps every falsy input (null, undefined or
the empty string) to the empty string. -/
def cleanTextJS (text : Option Str) : Str :=
  match text with
  | none => []
  | some t => cleanText t

/-- No character satisfying `p` is immediately followed by a character
satisfying `q`. -/
def noPair (p q : Char → Bool) : Str → Bool
  | [] => true
  | [_] => true
  | a :: b :: rest => !(p a && q b) && noPair p q (b :: rest)

/-- No punctuation character from `[.,;:]` is immediately followed by
another one. -/
def noAdjPunct (l : Str) : Bool := noPair isPunctC isPunctC l

/-- Opaque JavaScript error values; the handler's catch block reads
`error.message`, so an error is represented by its message. -/
abbrev JsError := String

/-- A text item of a page's `getTextContent()` result (pdfjs). -/
abbrev TextItem := String

/-- The `getTextContent()` result of one page: its `items` array. -/
structure TextContent where
  items : List TextItem
deriving DecidableEq

/-- A parsed pdfjs document: the `getPage(i).then(page =>
page.getTextContent())` outcome for each page `i = 1 .. numPages`. -/
structure PdfDocument where
  pages : List (Except JsError TextContent)
deriving DecidableEq

/-- `Promise.all`: the list of results if every promise resolves,
otherwise the first rejection. -/
def promiseAll {α : Type} : List (Except JsError α) → Except JsError (List α)
  | [] => .ok []
  | .error e :: _ => .error e
  | .ok a :: rest =>
    match promiseAll rest with
    | .error e => .error e
    | .ok as => .ok (a :: as)

/-- `isScannedPDF` (`src/server.js:282-296`), as a function of the
outcome of `pdfjsLib.getDocument` on the uploaded buffer.  There is no
try/catch: a rejected parse or page load propagates to the caller.  On
success it returns whether every page's `items.length === 0`. -/
def isScannedPDF (getDoc : Except JsError PdfDocument) : Except JsError Bool :=
  match getDoc with
  | .error e => .error e
  | .ok pdf =>
    match promiseAll pdf.pages with
    | .error e => .error e
    | .ok results => .ok (results.all (fun content => content.items.length == 0))

/-- The `pdf-parse` result object; `text` is `none` when the field is
missing/undefined and `some t` when it is the string `t`. -/
structure PdfParseData where
  text : Option Str
deriving DecidableEq

/-- The JavaScript truthiness idiom `x ? x.trim() : ""` applied to an
optional string field. -/
def trimOrEmpty (x : Option Str) : Str :=
  match x with
  | none => []
  | some t => if t = [] then [] else jsTrim t

/-- `extractTextPDF` (`src/server.js:299-307`), as a function of the
`pdfParse(buffer)` outcome: on success `data.text ? data.text.trim() :
""`, and any thrown error is caught and converted to `""`. -/
def extractTextPDF (parse : Except JsError PdfParseData) : Except JsError Str :=
  match parse with
  | .ok data => .ok (trimOrEmpty data.text)
  | .error _ => .ok []

/-- The `Tesseract.recognize` result object (its `data.text` field). -/
structure OcrData where
  text : Option Str
deriving DecidableEq

/-- Outcomes of the external calls made by `extractTextFromImages` for
one invocation: the `sharp` metadata probe (its `format` field), the
`sharp` processing pipeline, and the OCR run. -/
structure OcrEnv where
  metadataFormat : Option String
  sharpResult : Except JsError (List Nat)
  ocrResult : Except JsError OcrData
deriving DecidableEq

/-- `extractTextFromImages` (`src/server.js:309-337`): a missing
`metadata.format` throws "Unsupported image format", and every error in
the body (metadata probe result, sharp processing, OCR) is caught and
converted to `""`; on success `data.text ? data.text.trim() : ""`. -/
def extractTextFromImages (env : OcrEnv) : Except JsError Str :=
  .ok (match env.metadataFormat with
    | none => []
    | some _ =>
      match env.sharpResult with
      | .error _ => []
      | .ok _ =>
        match env.ocrResult with
        | .error _ => []
        | .ok data => trimOrEmpty data.text)

/-- The `mammoth.extractRawText` result object (its `value` field). -/
structure DocxData where
  value : Option Str
deriving DecidableEq

/-- `extractTextDOCX` (`src/server.js:340-348`): on success
`value ? value.trim() : ""`, and any thrown error is caught and
converted to `""`. -/
def extractTextDOCX (conv : Except JsError DocxData) : Except JsError Str :=
  match conv with
  | .ok data => .ok (trimOrEmpty data.value)
  | .error _ => .ok []

/-- `extractTextFromOtherDocs` (`src/server.js:351-362`), as a function
of the `textract.fromFileWithPath` callback outcome: an error is passed
to `reject(error)` and so propagates, a success resolves with
`text ? text.trim() : ""`. -/
def extractTextFromOtherDocs (conv : Except JsError (Option Str)) : Except JsError Str :=
  match conv with
  | .ok text => .ok (trimOrEmpty text)
  | .error e => .error e

/-- A generated artifact: the raw `response.data` payload returned by the
Gemini call, passed through opaquely. -/
abbrev Artifact := String

/-- `generateSummaryWithGemini` (`src/server.js:364-423`), as a function
of the `axios.post` outcome: on success it returns `response.data`
(which may itself be a null-equivalent value, modelled by `.ok none`),
and any error is caught and converted to `null`. -/
def generateSummaryWithGemini (apiCall : Except JsError (Option Artifact)) : Option Artifact :=
  match apiCall with
  | .ok data => data
  | .error _ => none

/-- The in-memory response cache `const cache = new Map()`
(`src/server.js:266`), as an association list from normalized text to
artifact, in insertion order. -/
abbrev Cache := List (Str × Artifact)

/-- `cache.get(key)` (also deciding `cache.has(key)`: the value is
present exactly when `has` is true, since only non-null artifacts are
inserted). -/
def cacheGet (c : Cache) (k : Str) : Option Artifact :=
  (c.find? (fun p => p.1 == k)).map (fun p => p.2)

/-- `cache.set(key, value)`: update the existing entry in place, or
append a new one. -/
def cacheSet (c : Cache) (k : Str) (v : Artifact) : Cache :=
  if c.any (fun p => p.1 == k) then
    c.map (fun p => if p.1 == k then (k, v) else p)
  else c ++ [(k, v)]

/-- The process-wide mutable state touched by the upload handler. -/
structure ServerState where
  cache : Cache
deriving DecidableEq

/-- The body of an HTTP response from the upload handler. -/
inductive RespBody
  | summary (a : Artifact)
  | errorMsg (msg : String)
deriving DecidableEq

/-- An HTTP response: status code and JSON body. -/
structure Response where
  status : Nat
  body : RespBody
deriving DecidableEq

/-- Observable side effects of one upload request: writes and deletes of
the request's temporary document file, runs of the extractor dispatch,
and calls to the Gemini gateway. -/
structure Trace where
  tempWrites : Nat
  tempDeletes : Nat
  extractorRuns : Nat
  geminiCalls : Nat
deriving DecidableEq

/-- An uploaded file as seen by the handler (`req.file`). -/
structure UploadedFile where
  buffer : List Nat
  originalname : Str
deriving DecidableEq

/-- Outcomes of all external calls the upload handler may make for one
request (each is a function of the uploaded buffer, so fixing the
request fixes them). -/
structure UploadEnv where
  pdfDoc : Except JsError PdfDocument
  pdfParse : Except JsError PdfParseData
  ocr : OcrEnv
  docx : Except JsError DocxData
  textract : Except JsError (Option Str)
  gemini : Except JsError (Option Artifact)
deriving DecidableEq

/-- The extractor dispatch of the upload handler (`src/server.js:438-445`):
`.pdf` files go through `isScannedPDF` and then OCR or direct PDF
extraction, `.docx` files through `extractTextDOCX`, anything else
through `extractTextFromOtherDocs`.  An `.error` outcome models a thrown
exception / rejected promise at this point of the handler body. -/
def dispatchExtract (env : UploadEnv) (fileName : Str) : Except JsError Str :=
  if strEndsWith fileName ".pdf".toList then
    match isScannedPDF env.pdfDoc with
    | .error e => .error e
    | .ok isScanned =>
      if isScanned then extractTextFromImages env.ocr
      else extractTextPDF env.pdfParse
  else if strEndsWith fileName ".docx".toList then
    extractTextDOCX env.docx
  else
    extractTextFromOtherDocs env.textract

/-- The result of one upload request: the HTTP response, the new server
state, and the request's side-effect trace. -/
structure UploadResult where
  resp : Response
  state : ServerState
  trace : Trace
deriving DecidableEq

/-- The `/upload` handler (`src/server.js:425-469`).  With no file field
it returns 400 at once.  Otherwise it writes the temporary file, runs
the extractor dispatch (an exception there jumps to the catch block and
returns 500 — skipping the `fs.unlinkSync` that deletes the temporary
file), deletes the temporary file, normalizes the text, rejects empty
text with 400, serves a cache hit, and on a miss calls Gemini, returns
500 on a null result, or caches and returns the summary. -/
def uploadHandler (env : UploadEnv) (file : Option UploadedFile) (st : ServerState) :
    UploadResult :=
  match file with
  | none => ⟨⟨400, .errorMsg "No file uploaded"⟩, st, ⟨0, 0, 0, 0⟩⟩
  | some f =>
    let fileName := jsToLower f.originalname
    match dispatchExtract env fileName with
    | .error e => ⟨⟨500, .errorMsg e⟩, st, ⟨1, 0, 1, 0⟩⟩
    | .ok extractedText =>
      let cleanedText := cleanText extractedText
      if cleanedText = [] then
        ⟨⟨400, .errorMsg "No extractable text found"⟩, st, ⟨1, 1, 1, 0⟩⟩
      else
        match cacheGet st.cache cleanedText with
        | some cached => ⟨⟨200, .summary cached⟩, st, ⟨1, 1, 1, 0⟩⟩
        | none =>
          match generateSummaryWithGemini env.gemini with
          | none =>
            ⟨⟨500, .errorMsg "Failed to generate summary with Gemini."⟩, st, ⟨1, 1, 1, 1⟩⟩
          | some summary =>
            ⟨⟨200, .summary summary⟩, ⟨cacheSet st.cache cleanedText summary⟩, ⟨1, 1, 1, 1⟩⟩

example : cleanText "...".toList = ". ..".toList := by decide
example : cleanText ". ..".toList = ". . .".toList := by decide
example : cleanText "abc123".toList = "abc 123".toList := by decide
example : cleanText "helloWorld".toList = "hello World".toList := by decide
example : cleanText "a\n\n\nb".toList = "a\nb".toList := by decide
example : cleanText "• item".toList = "- item".toList := by decide
example : cleanText ".. ..".toList = ". . . .".toList := by decide
example : cleanText "  a  b  ".toList = "a b".toList := by decide

theorem noPair_cons₂ {p q : Char → Bool} {a b : Char} {rest : Str} :
    noPair p q (a :: b :: rest) = (!(p a && q b) && noPair p q (b :: rest)) := rfl

theorem noPair_tail {p q : Char → Bool} {a : Char} {l : Str}
    (h : noPair p q (a :: l) = true) : noPair p q l = true := by
  cases l with
  | nil => rfl
  | cons b rest =>
    rw [noPair_cons₂, Bool.and_eq_true] at h
    exact h.2

theorem noPair_cons_of_head {p q : Char → Bool} {a : Char} {l : Str}
    (hpa : p a = false) (h : noPair p q l = true) : noPair p q (a :: l) = true := by
  cases l with
  | nil => rfl
  | cons b rest =>
    rw [noPair_cons₂, Bool.and_eq_true]
    exact ⟨by simp [hpa], h⟩

theorem noPair_mono {p q p' q' : Char → Bool} {l : Str}
    (hp : ∀ c, p' c = true → p c = true) (hq : ∀ c, q' c = true → q c = true)
    (h : noPair p q l = true) : noPair p' q' l = true := by
  induction l with
  | nil => rfl
  | cons a l ih =>
    cases l with
    | nil => rfl
    | cons b rest =>
      rw [noPair_cons₂, Bool.and_eq_true] at h ⊢
      refine ⟨?_, ih h.2⟩
      have h1 := h.1
      by_cases hpa : p' a = true
      · by_cases hqb : q' b = true
        · rw [hp a hpa, hq b hqb] at h1
          simp at h1
        · simp [Bool.not_eq_true] at hqb
          simp [hqb]
      · simp [Bool.not_eq_true] at hpa
        simp [hpa]

theorem noPair_of_q_false {p q : Char → Bool} (hq : ∀ c, q c = false) (l : Str) :
    noPair p q l = true := by
  induction l with
  | nil => rfl
  | cons a l ih =>
    cases l with
    | nil => rfl
    | cons b rest =>
      rw [noPair_cons₂, Bool.and_eq_true]
      exact ⟨by simp [hq b], ih⟩

theorem collapseNewlines_head (l : Str) :
    (collapseNewlines l).head? = l.head? := by
  induction l using collapseNewlines.induct with
  | case1 => rfl
  | case2 c => rfl
  | case3 a b rest h ih =>
    rw [collapseNewlines, if_pos h]
    rw [ih]
    simp only [List.head?_cons]
    simp only [Bool.and_eq_true, decide_eq_true_eq] at h
    rw [h.1, h.2]
  | case4 a b rest h ih =>
    rw [collapseNewlines, if_neg h]
    rfl

theorem spaceBetween_head (p q : Char → Bool) (l : Str) :
    (spaceBetween p q l).head? = l.head? := by
  induction l using spaceBetween.induct p q with
  | case1 => rfl
  | case2 a => rfl
  | case3 a b rest h ih => rw [spaceBetween, if_pos h]; rfl
  | case4 a b rest h ih => rw [spaceBetween, if_neg h]; rfl

theorem collapseWsAux_ws_head {c : Char} (l : Str) (hc : jsWs c = true) :
    ∃ t, collapseWsAux true (c :: l) = ' ' :: t := by
  induction l generalizing c with
  | nil => exact ⟨[], by simp [collapseWsAux, hc]⟩
  | cons d r ih =>
    by_cases hd : jsWs d = true
    · obtain ⟨t, ht⟩ := ih hd
      exact ⟨t, by rw [collapseWsAux]; simp [hc, hd, ht]⟩
    · refine ⟨collapseWsAux false (d :: r), ?_⟩
      rw [collapseWsAux]
      simp [hc, hd]

theorem collapseWsAux_head_cases {b : Bool} {l : Str} {c : Char} {t : Str}
    (h : collapseWsAux b l = c :: t) : c = ' ' ∨ l.head? = some c := by
  cases l with
  | nil => simp [collapseWsAux] at h
  | cons x rest =>
    cases rest with
    | nil =>
      rw [collapseWsAux] at h
      by_cases hx : jsWs x = true
      · simp [hx] at h
        cases b with
        | true => simp at h; exact Or.inl h.1.symm
        | false => simp at h; exact Or.inr (by simp [h.1])
      · simp [hx] at h
        exact Or.inr (by simp [h.1])
    | cons d r =>
      rw [collapseWsAux] at h
      by_cases hx : jsWs x = true
      · by_cases hd : jsWs d = true
        · simp [hx, hd] at h
          obtain ⟨t', ht'⟩ := collapseWsAux_ws_head r hd
          rw [ht'] at h
          injection h with h1 h2
          exact Or.inl h1.symm
        · simp [hx, hd] at h
          cases b with
          | true => simp at h; exact Or.inl h.1.symm
          | false => simp at h; exact Or.inr (by simp [h.1])
      · simp [hx] at h
        exact Or.inr (by simp [h.1])

theorem dropTrailWs_cons {x : Char} {r : Str} {c : Char} {t : Str}
    (h : dropTrailWs (x :: r) = c :: t) : c = x := by
  rw [dropTrailWs] at h
  cases h' : dropTrailWs r with
  | nil =>
    rw [h'] at h
    by_cases hx : jsWs x = true <;> simp [hx] at h
    exact h.1.symm
  | cons d t' =>
    rw [h'] at h
    simp at h
    exact h.1.symm

theorem dropWhile_head_false {w : Char → Bool} {l : Str} {c : Char} {t : Str}
    (h : l.dropWhile w = c :: t) : w c = false := by
  induction l with
  | nil => simp at h
  | cons x r ih =>
    by_cases hx : w x = true
    · rw [List.dropWhile_cons_of_pos hx] at h
      exact ih h
    · rw [List.dropWhile_cons_of_neg hx] at h
      cases h
      simpa using hx

theorem eq_cons_of_head? {l : Str} {x : Char} (h : l.head? = some x) :
    ∃ t, l = x :: t := by
  cases l with
  | nil => simp at h
  | cons c t =>
    simp at h
    exact ⟨t, by rw [h]⟩

theorem noPair_cons_general {p q : Char → Bool} {a : Char} {l : Str}
    (hhead : ∀ x, l.head? = some x → (p a && q x) = false)
    (h : noPair p q l = true) : noPair p q (a :: l) = true := by
  cases l with
  | nil => rfl
  | cons b rest =>
    rw [noPair_cons₂, Bool.and_eq_true]
    refine ⟨?_, h⟩
    rw [hhead b rfl]
    rfl

theorem noPair_head_pair {p q : Char → Bool} {b : Char} {l : Str}
    (h : noPair p q (b :: l) = true) :
    ∀ x, l.head? = some x → (p b && q x) = false := by
  intro x hx
  cases l with
  | nil => simp at hx
  | cons c r =>
    simp at hx
    subst hx
    rw [noPair_cons₂, Bool.and_eq_true] at h
    have h1 := h.1
    rw [Bool.not_eq_true'] at h1
    exact h1

theorem spaceBetween_noPair {p q : Char → Bool} (hq : q ' ' = false) (hp : p ' ' = false)
    {l : Str} (h : noPair p (fun c => p c && q c) l = true) :
    noPair p q (spaceBetween p q l) = true := by
  induction l using spaceBetween.induct p q with
  | case1 => rfl
  | case2 a => rfl
  | case3 a b rest hab ih =>
    rw [spaceBetween, if_pos hab]
    rw [Bool.and_eq_true] at hab
    have hpb : p b = false := by
      have h1 : (!(p a && (p b && q b))) = true := by
        rw [noPair_cons₂, Bool.and_eq_true] at h
        exact h.1
      simp [hab.1, hab.2] at h1
      exact h1
    have hrest : noPair p (fun c => p c && q c) rest = true :=
      noPair_tail (noPair_tail h)
    have h3 : noPair p q (b :: spaceBetween p q rest) = true :=
      noPair_cons_of_head hpb (ih hrest)
    have h2 : noPair p q (' ' :: b :: spaceBetween p q rest) = true :=
      noPair_cons_of_head hp h3
    rw [noPair_cons₂, Bool.and_eq_true]
    exact ⟨by simp [hq], h2⟩
  | case4 a b rest hab ih =>
    rw [spaceBetween, if_neg hab]
    have h2 := ih (noPair_tail h)
    obtain ⟨t, ht⟩ := eq_cons_of_head?
      (x := b) (by rw [spaceBetween_head]; rfl : (spaceBetween p q (b :: rest)).head? = some b)
    rw [ht]
    refine noPair_cons_general ?_ (by rw [← ht]; exact h2)
    intro x hx
    simp at hx
    subst hx
    rw [Bool.not_eq_true] at hab
    exact hab

theorem collapseWsAux_cons_nonws {d : Char} (b : Bool) (r : Str) (hd : jsWs d = false) :
    collapseWsAux b (d :: r) = d :: collapseWsAux false r := by
  cases r with
  | nil => rw [collapseWsAux.eq_2]; simp [hd]
  | cons e r' => rw [collapseWsAux.eq_3]; simp [hd]

theorem replaceBullets_noBullet (l : Str) :
    (replaceBullets l).all (fun c => !isBullet c) = true := by
  induction l using replaceBullets.induct with
  | case1 => rfl
  | case2 c rest hc ih =>
    rw [replaceBullets, if_pos hc]
    simp only [List.all_cons, Bool.and_eq_true]
    exact ⟨by decide, by decide, ih⟩
  | case3 c rest hc ih =>
    rw [replaceBullets, if_neg hc]
    simp only [List.all_cons, Bool.and_eq_true]
    exact ⟨by simpa using hc, ih⟩

theorem collapseWsAux_noPair (b : Bool) (l : Str) :
    noPair jsWs jsWs (collapseWsAux b l) = true := by
  induction b, l using collapseWsAux.induct with
  | case1 prevWs => rfl
  | case2 c hc =>
    rw [collapseWsAux.eq_2]
    simp only [hc, if_true]
    rfl
  | case3 prevWs c hc hnp =>
    rw [collapseWsAux.eq_2]
    rw [Bool.not_eq_true] at hnp
    simp only [hc, hnp, if_true, Bool.false_eq_true, if_false]
    rfl
  | case4 prevWs c hc d tail hd ih =>
    rw [collapseWsAux.eq_3]
    simp only [hc, hd, if_true]
    exact ih
  | case5 prevWs c hc d tail hd ih =>
    rw [collapseWsAux.eq_3]
    rw [Bool.not_eq_true] at hd
    simp only [hc, hd, if_true, Bool.false_eq_true, if_false]
    rw [collapseWsAux_cons_nonws false tail hd] at ih ⊢
    refine noPair_cons_general ?_ ih
    intro x hx
    simp at hx
    rw [← hx]
    simp [hd]
  | case6 prevWs c rest hc ih =>
    rw [collapseWsAux.eq_def]
    cases rest with
    | nil =>
      simp only [Bool.not_eq_true] at hc
      simp only [hc, Bool.false_eq_true, if_false]
      exact noPair_cons_of_head hc ih
    | cons d r =>
      simp only [Bool.not_eq_true] at hc
      simp only [hc, Bool.false_eq_true, if_false]
      exact noPair_cons_of_head hc ih

theorem collapseNewlines_pres {r s : Char → Bool} {l : Str}
    (h : noPair r s l = true) : noPair r s (collapseNewlines l) = true := by
  induction l using collapseNewlines.induct with
  | case1 => rfl
  | case2 c => rfl
  | case3 a b rest hab ih =>
    rw [collapseNewlines, if_pos hab]
    exact ih (noPair_tail h)
  | case4 a b rest hab ih =>
    rw [collapseNewlines, if_neg hab]
    obtain ⟨t, ht⟩ := eq_cons_of_head?
      (x := b) (by rw [collapseNewlines_head]; rfl :
        (collapseNewlines (b :: rest)).head? = some b)
    rw [ht]
    refine noPair_cons_general ?_ (by rw [← ht]; exact ih (noPair_tail h))
    intro x hx
    simp at hx
    subst hx
    exact noPair_head_pair h b rfl

theorem spaceBetween_pres {p q r s : Char → Bool} (hr : r ' ' = false)
    (hs : s ' ' = false) {l : Str} (h : noPair r s l = true) :
    noPair r s (spaceBetween p q l) = true := by
  induction l using spaceBetween.induct p q with
  | case1 => rfl
  | case2 a => rfl
  | case3 a b rest hab ih =>
    rw [spaceBetween, if_pos hab]
    have h4 : noPair r s (b :: spaceBetween p q rest) = true := by
      refine noPair_cons_general ?_ (ih (noPair_tail (noPair_tail h)))
      intro x hx
      obtain ⟨t, hx'⟩ := eq_cons_of_head? hx
      have hhead : rest.head? = some x := by
        rw [← spaceBetween_head p q rest, hx']
        rfl
      exact noPair_head_pair (noPair_tail h) x hhead
    have h3 : noPair r s (' ' :: b :: spaceBetween p q rest) = true :=
      noPair_cons_of_head hr h4
    refine noPair_cons_general ?_ h3
    intro x hx
    simp at hx
    subst hx
    simp [hs]
  | case4 a b rest hab ih =>
    rw [spaceBetween, if_neg hab]
    obtain ⟨t, ht⟩ := eq_cons_of_head?
      (x := b) (by rw [spaceBetween_head]; rfl :
        (spaceBetween p q (b :: rest)).head? = some b)
    rw [ht]
    refine noPair_cons_general ?_ (by rw [← ht]; exact ih (noPair_tail h))
    intro x hx
    simp at hx
    subst hx
    exact noPair_head_pair h b rfl

theorem replaceBullets_pres {r s : Char → Bool} (hs1 : s '-' = false)
    (hr : r ' ' = false) (hs : s ' ' = false) {l : Str}
    (h : noPair r s l = true) : noPair r s (replaceBullets l) = true := by
  induction l using replaceBullets.induct with
  | case1 => rfl
  | case2 c rest hc ih =>
    rw [replaceBullets, if_pos hc]
    have h3 : noPair r s (' ' :: replaceBullets rest) = true :=
      noPair_cons_of_head hr (ih (noPair_tail h))
    refine noPair_cons_general ?_ h3
    intro x hx
    simp at hx
    subst hx
    simp [hs]
  | case3 c rest hc ih =>
    rw [replaceBullets, if_neg hc]
    refine noPair_cons_general ?_ (ih (noPair_tail h))
    intro x hx
    cases rest with
    | nil => simp [replaceBullets] at hx
    | cons d r' =>
      by_cases hd : isBullet d = true
      · rw [replaceBullets, if_pos hd] at hx
        simp at hx
        subst hx
        simp [hs1]
      · rw [replaceBullets, if_neg hd] at hx
        simp at hx
        subst hx
        exact noPair_head_pair h d rfl

theorem collapseWsAux_pres {r s : Char → Bool} (hr : r ' ' = false)
    (hs : s ' ' = false) {b : Bool} {l : Str} (h : noPair r s l = true) :
    noPair r s (collapseWsAux b l) = true := by
  induction b, l using collapseWsAux.induct with
  | case1 prevWs => rfl
  | case2 c hc =>
    rw [collapseWsAux.eq_2]
    simp only [hc, if_true]
    rfl
  | case3 prevWs c hc hnp =>
    rw [collapseWsAux.eq_2]
    rw [Bool.not_eq_true] at hnp
    simp only [hc, hnp, if_true, Bool.false_eq_true, if_false]
    rfl
  | case4 prevWs c hc d tail hd ih =>
    rw [collapseWsAux.eq_3]
    simp only [hc, hd, if_true]
    exact ih (noPair_tail h)
  | case5 prevWs c hc d tail hd ih =>
    rw [collapseWsAux.eq_3]
    rw [Bool.not_eq_true] at hd
    simp only [hc, hd, if_true, Bool.false_eq_true, if_false]
    rw [collapseWsAux_cons_nonws false tail hd] at ih ⊢
    refine noPair_cons_general ?_ (ih (noPair_tail h))
    intro x hx
    simp at hx
    subst hx
    by_cases hp : prevWs = true
    · simp [hp, hr]
    · rw [Bool.not_eq_true] at hp
      simp only [hp, Bool.false_eq_true, if_false]
      exact noPair_head_pair h d rfl
  | case6 prevWs c rest hc ih =>
    rw [collapseWsAux.eq_def]
    simp only [Bool.not_eq_true] at hc
    cases rest with
    | nil =>
      simp only [hc, Bool.false_eq_true, if_false]
      rfl
    | cons d r' =>
      simp only [hc, Bool.false_eq_true, if_false]
      refine noPair_cons_general ?_ (ih (noPair_tail h))
      intro x hx
      obtain ⟨t, hx'⟩ := eq_cons_of_head? hx
      rcases collapseWsAux_head_cases hx' with h' | h'
      · subst h'
        simp [hs]
      · simp at h'
        subst h'
        exact noPair_head_pair h d rfl

theorem dropWhile_pres {r s w : Char → Bool} {l : Str}
    (h : noPair r s l = true) : noPair r s (l.dropWhile w) = true := by
  induction l with
  | nil => rfl
  | cons x rest ih =>
    by_cases hx : w x = true
    · rw [List.dropWhile_cons_of_pos hx]
      exact ih (noPair_tail h)
    · rw [List.dropWhile_cons_of_neg hx]
      exact h

theorem dropTrailWs_pres {r s : Char → Bool} {l : Str}
    (h : noPair r s l = true) : noPair r s (dropTrailWs l) = true := by
  induction l with
  | nil => rfl
  | cons x rest ih =>
    rw [dropTrailWs]
    cases h' : dropTrailWs rest with
    | nil =>
      by_cases hx : jsWs x = true <;> simp [hx] <;> rfl
    | cons d t =>
      simp only []
      cases rest with
      | nil => simp [dropTrailWs] at h'
      | cons y r' =>
        have hd : d = y := dropTrailWs_cons h'
        subst hd
        refine noPair_cons_general ?_ ?_
        · intro z hz
          simp at hz
          subst hz
          exact noPair_head_pair h d rfl
        · rw [← h']
          exact ih (noPair_tail h)

theorem spaceBetween_all {p q m : Char → Bool} (hm : m ' ' = true) {l : Str}
    (h : l.all m = true) : (spaceBetween p q l).all m = true := by
  induction l using spaceBetween.induct p q with
  | case1 => rfl
  | case2 a => exact h
  | case3 a b rest hab ih =>
    rw [spaceBetween, if_pos hab]
    simp only [List.all_cons, Bool.and_eq_true] at h ⊢
    exact ⟨h.1, hm, h.2.1, ih h.2.2⟩
  | case4 a b rest hab ih =>
    rw [spaceBetween, if_neg hab]
    simp only [List.all_cons, Bool.and_eq_true] at h ⊢
    exact ⟨h.1, by simpa using ih (by simp only [List.all_cons, Bool.and_eq_true]; exact h.2)⟩

theorem collapseWsAux_all {m : Char → Bool} (hm : m ' ' = true) {b : Bool} {l : Str}
    (h : l.all m = true) : (collapseWsAux b l).all m = true := by
  induction b, l using collapseWsAux.induct with
  | case1 prevWs => rfl
  | case2 c hc =>
    rw [collapseWsAux.eq_2]
    simp only [hc, if_true]
    simp [hm]
  | case3 prevWs c hc hnp =>
    rw [collapseWsAux.eq_2]
    rw [Bool.not_eq_true] at hnp
    simp only [hc, hnp, if_true, Bool.false_eq_true, if_false]
    exact h
  | case4 prevWs c hc d tail hd ih =>
    rw [collapseWsAux.eq_3]
    simp only [hc, hd, if_true]
    simp only [List.all_cons, Bool.and_eq_true] at h
    exact ih (by simp only [List.all_cons, Bool.and_eq_true]; exact h.2)
  | case5 prevWs c hc d tail hd ih =>
    rw [collapseWsAux.eq_3]
    rw [Bool.not_eq_true] at hd
    simp only [hc, hd, if_true, Bool.false_eq_true, if_false]
    simp only [List.all_cons, Bool.and_eq_true] at h ⊢
    refine ⟨?_, by simpa using ih (by simp only [List.all_cons, Bool.and_eq_true]; exact h.2)⟩
    by_cases hp : prevWs = true
    · simp [hp, hm]
    · rw [Bool.not_eq_true] at hp
      simp only [hp, Bool.false_eq_true, if_false]
      exact h.1
  | case6 prevWs c rest hc ih =>
    rw [collapseWsAux.eq_def]
    simp only [Bool.not_eq_true] at hc
    simp only [List.all_cons, Bool.and_eq_true] at h
    cases rest with
    | nil =>
      simp only [hc, Bool.false_eq_true, if_false]
      rw [collapseWsAux.eq_1]
      simp [h.1]
    | cons d r' =>
      simp only [hc, Bool.false_eq_true, if_false]
      simp only [List.all_cons, Bool.and_eq_true]
      exact ⟨h.1, ih h.2⟩

theorem dropWhile_all {m w : Char → Bool} {l : Str}
    (h : l.all m = true) : (l.dropWhile w).all m = true := by
  induction l with
  | nil => rfl
  | cons x rest ih =>
    simp only [List.all_cons, Bool.and_eq_true] at h
    by_cases hx : w x = true
    · rw [List.dropWhile_cons_of_pos hx]
      exact ih h.2
    · rw [List.dropWhile_cons_of_neg hx]
      simp [h.1, h.2]

theorem dropTrailWs_all {m : Char → Bool} {l : Str}
    (h : l.all m = true) : (dropTrailWs l).all m = true := by
  induction l with
  | nil => rfl
  | cons x rest ih =>
    simp only [List.all_cons, Bool.and_eq_true] at h
    rw [dropTrailWs]
    cases h' : dropTrailWs rest with
    | nil =>
      by_cases hx : jsWs x = true <;> simp [hx, h.1]
    | cons d t =>
      simp only [List.all_cons, Bool.and_eq_true]
      have := ih h.2
      rw [h'] at this
      simp only [List.all_cons, Bool.and_eq_true] at this
      exact ⟨h.1, this.1, this.2⟩

theorem collapseNewlines_id {l : Str}
    (h : noPair (fun c => decide (c = '\n')) (fun c => decide (c = '\n')) l = true) :
    collapseNewlines l = l := by
  induction l using collapseNewlines.induct with
  | case1 => rfl
  | case2 c => rfl
  | case3 a b rest hab ih =>
    exfalso
    rw [noPair_cons₂, Bool.and_eq_true] at h
    have h1 := h.1
    simp only [Bool.and_eq_true, decide_eq_true_eq] at hab
    simp [hab.1, hab.2] at h1
  | case4 a b rest hab ih =>
    rw [collapseNewlines, if_neg hab]
    rw [ih (noPair_tail h)]

theorem spaceBetween_id {p q : Char → Bool} {l : Str}
    (h : noPair p q l = true) : spaceBetween p q l = l := by
  induction l using spaceBetween.induct p q with
  | case1 => rfl
  | case2 a => rfl
  | case3 a b rest hab ih =>
    exfalso
    rw [noPair_cons₂, Bool.and_eq_true] at h
    have h1 := h.1
    rw [hab] at h1
    simp at h1
  | case4 a b rest hab ih =>
    rw [spaceBetween, if_neg hab]
    rw [ih (noPair_tail h)]

theorem replaceBullets_id {l : Str}
    (h : l.all (fun c => !isBullet c) = true) : replaceBullets l = l := by
  induction l using replaceBullets.induct with
  | case1 => rfl
  | case2 c rest hc ih =>
    exfalso
    simp only [List.all_cons, Bool.and_eq_true] at h
    have h1 := h.1
    rw [hc] at h1
    simp at h1
  | case3 c rest hc ih =>
    rw [replaceBullets, if_neg hc]
    simp only [List.all_cons, Bool.and_eq_true] at h
    rw [ih h.2]

theorem collapseWsAux_id {l : Str}
    (h : noPair jsWs jsWs l = true) : collapseWsAux false l = l := by
  induction l with
  | nil => rfl
  | cons c rest ih =>
    cases rest with
    | nil =>
      rw [collapseWsAux.eq_2]
      by_cases hc : jsWs c = true <;> simp [hc, collapseWsAux.eq_1]
    | cons d r' =>
      rw [collapseWsAux.eq_3]
      by_cases hc : jsWs c = true
      · have hd : jsWs d = false := by
          rw [noPair_cons₂, Bool.and_eq_true] at h
          have h1 := h.1
          rw [hc] at h1
          simpa using h1
        simp only [hc, hd, if_true, Bool.false_eq_true, if_false]
        rw [ih (noPair_tail h)]
      · simp only [Bool.not_eq_true] at hc
        simp only [hc, Bool.false_eq_true, if_false]
        rw [ih (noPair_tail h)]

theorem dropWhile_id_of_head {w : Char → Bool} {l : Str}
    (h : ∀ x, l.head? = some x → w x = false) : l.dropWhile w = l := by
  cases l with
  | nil => rfl
  | cons x rest => exact List.dropWhile_cons_of_neg (by simp [h x rfl])

theorem dropTrailWs_idem (l : Str) : dropTrailWs (dropTrailWs l) = dropTrailWs l := by
  induction l with
  | nil => rfl
  | cons c rest ih =>
    rw [dropTrailWs]
    cases h' : dropTrailWs rest with
    | nil =>
      by_cases hc : jsWs c = true
      · simp [hc]
        rfl
      · simp only [hc, Bool.false_eq_true, if_false]
        rw [dropTrailWs, dropTrailWs]
        simp [hc]
    | cons d t =>
      rw [dropTrailWs]
      have h2 : dropTrailWs (d :: t) = d :: t := by
        rw [← h', ih]
      rw [h2]

theorem jsTrim_idem (l : Str) : jsTrim (jsTrim l) = jsTrim l := by
  rw [jsTrim, jsTrim]
  have h1 : (dropTrailWs (List.dropWhile jsWs l)).dropWhile jsWs
      = dropTrailWs (List.dropWhile jsWs l) := by
    refine dropWhile_id_of_head ?_
    intro x hx
    obtain ⟨t, ht⟩ := eq_cons_of_head? hx
    cases hdw : List.dropWhile jsWs l with
    | nil => rw [hdw] at ht; simp [dropTrailWs] at ht
    | cons y r =>
      rw [hdw] at ht
      have hxy : x = y := dropTrailWs_cons ht
      subst hxy
      exact dropWhile_head_false hdw
  rw [h1, dropTrailWs_idem]

theorem lower_upper_false (c : Char) : (isLowerC c && isUpperC c) = false := by
  by_cases h1 : isLowerC c = true
  · simp only [h1, Bool.true_and]
    rw [isLowerC, Bool.and_eq_true] at h1
    simp only [decide_eq_true_eq] at h1
    rw [isUpperC]
    simp only [Bool.and_eq_false_iff]
    right
    simp only [decide_eq_false_iff_not]
    intro h2
    exact absurd (le_trans h1.1 h2) (by decide)
  · rw [Bool.not_eq_true] at h1
    simp [h1]

theorem letter_digit_false (c : Char) : (isLetterC c && isDigitC c) = false := by
  by_cases h1 : isDigitC c = true
  · simp only [Bool.and_eq_false_iff]
    left
    rw [isDigitC, Bool.and_eq_true] at h1
    simp only [decide_eq_true_eq] at h1
    rw [isLetterC, isLowerC, isUpperC]
    simp only [Bool.or_eq_false_iff, Bool.and_eq_false_iff]
    constructor
    · left
      simp only [decide_eq_false_iff_not]
      intro h2
      exact absurd (le_trans h2 h1.2) (by decide)
    · left
      simp only [decide_eq_false_iff_not]
      intro h2
      exact absurd (le_trans h2 h1.2) (by decide)
  · rw [Bool.not_eq_true] at h1
    simp [h1]

theorem digit_letter_false (c : Char) : (isDigitC c && isLetterC c) = false := by
  have := letter_digit_false c
  rw [Bool.and_eq_false_iff] at this ⊢
  rcases this with h | h
  · right; exact h
  · left; exact h

theorem cleanText_out_facts (s : Str) (hadj : noAdjPunct s = true) :
    noPair isLowerC isUpperC (cleanText s) = true ∧
    noPair isLetterC isDigitC (cleanText s) = true ∧
    noPair isDigitC isLetterC (cleanText s) = true ∧
    (cleanText s).all (fun c => !isBullet c) = true ∧
    noPair isPunctC isNonWs (cleanText s) = true ∧
    noPair jsWs jsWs (cleanText s) = true ∧
    jsTrim (cleanText s) = cleanText s := by
  by_cases hs : s = []
  · subst hs
    exact ⟨rfl, rfl, rfl, rfl, rfl, rfl, rfl⟩
  · rw [noAdjPunct] at hadj
    rw [cleanText, if_neg hs]
    simp only [collapseWs]
    set u1 := collapseNewlines s with hu1
    set u2 := spaceBetween isLowerC isUpperC u1 with hu2
    set u3 := spaceBetween isLetterC isDigitC u2 with hu3
    set u4 := spaceBetween isDigitC isLetterC u3 with hu4
    set u5 := replaceBullets u4 with hu5
    set u6 := spaceBetween isPunctC isNonWs u5 with hu6
    set u7 := collapseWsAux false u6 with hu7
    have ha1 : noPair isPunctC isPunctC u1 = true := collapseNewlines_pres hadj
    have ha2 : noPair isPunctC isPunctC u2 = true :=
      spaceBetween_pres (by decide) (by decide) ha1
    have ha3 : noPair isPunctC isPunctC u3 = true :=
      spaceBetween_pres (by decide) (by decide) ha2
    have ha4 : noPair isPunctC isPunctC u4 = true :=
      spaceBetween_pres (by decide) (by decide) ha3
    have ha5 : noPair isPunctC isPunctC u5 = true :=
      replaceBullets_pres (by decide) (by decide) (by decide) ha4
    have hb2 : noPair isLowerC isUpperC u2 = true :=
      spaceBetween_noPair (by decide) (by decide)
        (noPair_of_q_false lower_upper_false u1)
    have hb3 : noPair isLowerC isUpperC u3 = true :=
      spaceBetween_pres (by decide) (by decide) hb2
    have hb4 : noPair isLowerC isUpperC u4 = true :=
      spaceBetween_pres (by decide) (by decide) hb3
    have hb5 : noPair isLowerC isUpperC u5 = true :=
      replaceBullets_pres (by decide) (by decide) (by decide) hb4
    have hb6 : noPair isLowerC isUpperC u6 = true :=
      spaceBetween_pres (by decide) (by decide) hb5
    have hb7 : noPair isLowerC isUpperC u7 = true :=
      collapseWsAux_pres (by decide) (by decide) hb6
    have hc3 : noPair isLetterC isDigitC u3 = true :=
      spaceBetween_noPair (by decide) (by decide)
        (noPair_of_q_false letter_digit_false u2)
    have hc4 : noPair isLetterC isDigitC u4 = true :=
      spaceBetween_pres (by decide) (by decide) hc3
    have hc5 : noPair isLetterC isDigitC u5 = true :=
      replaceBullets_pres (by decide) (by decide) (by decide) hc4
    have hc6 : noPair isLetterC isDigitC u6 = true :=
      spaceBetween_pres (by decide) (by decide) hc5
    have hc7 : noPair isLetterC isDigitC u7 = true :=
      collapseWsAux_pres (by decide) (by decide) hc6
    have hd4 : noPair isDigitC isLetterC u4 = true :=
      spaceBetween_noPair (by decide) (by decide)
        (noPair_of_q_false digit_letter_false u3)
    have hd5 : noPair isDigitC isLetterC u5 = true :=
      replaceBullets_pres (by decide) (by decide) (by decide) hd4
    have hd6 : noPair isDigitC isLetterC u6 = true :=
      spaceBetween_pres (by decide) (by decide) hd5
    have hd7 : noPair isDigitC isLetterC u7 = true :=
      collapseWsAux_pres (by decide) (by decide) hd6
    have he5 : u5.all (fun c => !isBullet c) = true := replaceBullets_noBullet u4
    have he6 : u6.all (fun c => !isBullet c) = true :=
      spaceBetween_all (by decide) he5
    have he7 : u7.all (fun c => !isBullet c) = true :=
      collapseWsAux_all (by decide) he6
    have hf6 : noPair isPunctC isNonWs u6 = true := by
      refine spaceBetween_noPair (by decide) (by decide) ?_
      refine noPair_mono (fun c hc => hc) ?_ ha5
      intro c hc
      rw [Bool.and_eq_true] at hc
      exact hc.1
    have hf7 : noPair isPunctC isNonWs u7 = true :=
      collapseWsAux_pres (by decide) (by decide) hf6
    have hg7 : noPair jsWs jsWs u7 = true := collapseWsAux_noPair false u6
    refine ⟨?_, ?_, ?_, ?_, ?_, ?_, jsTrim_idem u7⟩
    · exact dropTrailWs_pres (dropWhile_pres hb7)
    · exact dropTrailWs_pres (dropWhile_pres hc7)
    · exact dropTrailWs_pres (dropWhile_pres hd7)
    · exact dropTrailWs_all (dropWhile_all he7)
    · exact dropTrailWs_pres (dropWhile_pres hf7)
    · exact dropTrailWs_pres (dropWhile_pres hg7)

theorem promiseAll_map_ok {α : Type} (cs : List α) :
    promiseAll (cs.map (Except.ok : α → Except JsError α)) = Except.ok cs := by
  induction cs with
  | nil => rfl
  | cons c rest ih =>
    rw [List.map_cons, promiseAll, ih]

theorem find?_map_update {c : Cache} {k : Str} (v : Artifact)
    (h : c.any (fun p => p.1 == k) = true) :
    (c.map (fun p => if p.1 == k then (k, v) else p)).find? (fun p => p.1 == k)
      = some (k, v) := by
  induction c with
  | nil => simp at h
  | cons p rest ih =>
    rw [List.map_cons]
    by_cases hp : (p.1 == k) = true
    · simp only [hp, if_true]
      exact List.find?_cons_of_pos _ (by simp)
    · simp only [hp, Bool.false_eq_true, if_false]
      rw [List.find?_cons_of_neg _ (by simpa using hp)]
      refine ih ?_
      rw [List.any_cons] at h
      simp only [Bool.or_eq_true] at h
      rcases h with h | h
      · exact absurd h hp
      · exact h

theorem cacheGet_cacheSet (c : Cache) (k : Str) (v : Artifact) :
    cacheGet (cacheSet c k v) k = some v := by
  rw [cacheSet]
  by_cases h : c.any (fun p => p.1 == k) = true
  · rw [if_pos h, cacheGet, find?_map_update v h]
    rfl
  · rw [if_neg h, cacheGet]
    have hfc : c.find? (fun p => p.1 == k) = none := by
      rw [List.find?_eq_none]
      intro x hx hpx
      exact h (by rw [List.any_eq_true]; exact ⟨x, hx, hpx⟩)
    rw [List.find?_append, hfc]
    simp

theorem cacheSet_keys_ne {c : Cache} {k : Str} {v : Artifact}
    (hc : ∀ p ∈ c, p.1 ≠ ([] : Str)) (hk : k ≠ []) :
    ∀ p ∈ cacheSet c k v, p.1 ≠ ([] : Str) := by
  intro p hp
  rw [cacheSet] at hp
  by_cases h : c.any (fun q => q.1 == k) = true
  · rw [if_pos h, List.mem_map] at hp
    obtain ⟨q, hq, rfl⟩ := hp
    by_cases hqk : (q.1 == k) = true
    · simp only [hqk, if_true]
      exact hk
    · simp only [hqk, Bool.false_eq_true, if_false]
      exact hc q hq
  · rw [if_neg h, List.mem_append] at hp
    rcases hp with hp | hp
    · exact hc p hp
    · simp at hp
      rw [hp]
      exact hk

/-- C3: the text normalizer is a total function (it is a Lean function,
defined on every input) and maps both the empty string and a
null-equivalent (falsy) input to the empty string, without failing. -/
theorem cleanText_total_on_empty_and_null :
    cleanTextJS none = [] ∧ cleanTextJS (some []) = [] :=
  ⟨rfl, rfl⟩

/-- C4: the scanned-document detector returns `true` iff every page of
the parsed PDF has an empty text-content item list; a page with at
least one item makes it return `false`; a parse error propagates to the
caller unchanged. -/
theorem isScannedPDF_spec :
    (∀ cs : List TextContent,
        (isScannedPDF (Except.ok ⟨cs.map Except.ok⟩) = Except.ok true ↔
          ∀ c ∈ cs, c.items = [])) ∧
    (∀ cs : List TextContent, ∀ c ∈ cs, c.items ≠ [] →
        isScannedPDF (Except.ok ⟨cs.map Except.ok⟩) = Except.ok false) ∧
    (∀ e : JsError, isScannedPDF (Except.error e) = Except.error e) := by
  have hval : ∀ cs : List TextContent,
      isScannedPDF (Except.ok ⟨cs.map Except.ok⟩) =
        Except.ok (cs.all (fun content => content.items.length == 0)) := by
    intro cs
    simp only [isScannedPDF, promiseAll_map_ok]
  refine ⟨?_, ?_, fun e => rfl⟩
  · intro cs
    rw [hval]
    constructor
    · intro h c hc
      simp only [Except.ok.injEq] at h
      rw [List.all_eq_true] at h
      have := h c hc
      simpa [List.length_eq_zero] using this
    · intro h
      simp only [Except.ok.injEq]
      rw [List.all_eq_true]
      intro c hc
      simp [List.length_eq_zero, h c hc]
  · intro cs c hc hne
    rw [hval]
    simp only [Except.ok.injEq]
    rw [List.all_eq_false]
    refine ⟨c, hc, ?_⟩
    simpa [List.length_eq_zero] using hne

/-- C4 witness: a one-page PDF with an empty item list is classified as
scanned. -/
theorem isScannedPDF_spec_witness :
    isScannedPDF (Except.ok ⟨[Except.ok ⟨[]⟩]⟩) = Except.ok true := by
  refine (isScannedPDF_spec.1 [⟨[]⟩]).mpr ?_
  intro c hc
  simp at hc
  rw [hc]

/-- C7: an upload with no file field is answered 400 "No file uploaded"
with the state unchanged and no side effects at all: no temporary file
write or delete, no extractor run, no Gemini call. -/
theorem upload_missing_file (env : UploadEnv) (st : ServerState) :
    uploadHandler env none st =
      ⟨⟨400, RespBody.errorMsg "No file uploaded"⟩, st, ⟨0, 0, 0, 0⟩⟩ :=
  rfl

/-- C8: the PDF-text, OCR and DOCX extractors never throw — each caught
failure becomes the empty-text result — while the generic other-format
extractor propagates its failure to the caller. -/
theorem extractors_error_policy :
    (∀ p : Except JsError PdfParseData, (extractTextPDF p).isOk = true) ∧
    (∀ e : JsError, extractTextPDF (Except.error e) = Except.ok []) ∧
    (∀ env : OcrEnv, (extractTextFromImages env).isOk = true) ∧
    (∀ s r, extractTextFromImages ⟨none, s, r⟩ = Except.ok []) ∧
    (∀ m e r, extractTextFromImages ⟨some m, Except.error e, r⟩ = Except.ok []) ∧
    (∀ m b e, extractTextFromImages ⟨some m, Except.ok b, Except.error e⟩ = Except.ok []) ∧
    (∀ d : Except JsError DocxData, (extractTextDOCX d).isOk = true) ∧
    (∀ e : JsError, extractTextDOCX (Except.error e) = Except.ok []) ∧
    (∀ e : JsError, extractTextFromOtherDocs (Except.error e) = Except.error e) := by
  refine ⟨?_, fun e => rfl, fun env => rfl, fun s r => rfl, fun m e r => rfl,
    fun m b e => rfl, ?_, fun e => rfl, fun e => rfl⟩
  · intro p
    cases p <;> rfl
  · intro d
    cases d <;> rfl

/-- C6: an upload whose extracted text normalizes to the empty string is
answered 400 "No extractable text found"; the state (in particular the
cache) is unchanged and Gemini is not called. -/
theorem upload_empty_text_rejected (env : UploadEnv) (f : UploadedFile)
    (st : ServerState) (t : Str)
    (hdisp : dispatchExtract env (jsToLower f.originalname) = Except.ok t)
    (hempty : cleanText t = []) :
    uploadHandler env (some f) st =
      ⟨⟨400, RespBody.errorMsg "No extractable text found"⟩, st, ⟨1, 1, 1, 0⟩⟩ := by
  simp only [uploadHandler, hdisp, hempty]
  rfl

/-- C6 witness: a DOCX upload extracting whitespace-only text is
rejected with the 400 "No extractable text found" response, with no
Gemini call and no cache entry. -/
theorem upload_empty_text_rejected_witness :
    uploadHandler
      ⟨Except.error "x", Except.error "x", ⟨none, Except.error "x", Except.error "x"⟩,
        Except.ok ⟨some " \n ".toList⟩, Except.error "x", Except.ok none⟩
      (some ⟨[], "a.docx".toList⟩) ⟨[]⟩ =
      ⟨⟨400, RespBody.errorMsg "No extractable text found"⟩, ⟨[]⟩, ⟨1, 1, 1, 0⟩⟩ :=
  upload_empty_text_rejected _ _ _ [] (by decide) (by decide)

/-- C9: when the Gemini call yields no usable artifact (caught error or
null data), the upload handler leaves the response cache unchanged, on
every path. -/
theorem upload_gemini_failure_keeps_cache (env : UploadEnv)
    (file : Option UploadedFile) (st : ServerState)
    (h : generateSummaryWithGemini env.gemini = none) :
    (uploadHandler env file st).state.cache = st.cache := by
  cases file with
  | none => rfl
  | some f =>
    simp only [uploadHandler]
    split
    · rfl
    · split
      · rfl
      · split
        · rfl
        · split
          · rfl
          · rename_i hsum
            rw [h] at hsum
            cases hsum

/-- C9 witness: with a failing Gemini call and an empty starting cache,
the cache stays empty. -/
theorem upload_gemini_failure_keeps_cache_witness :
    (uploadHandler
      ⟨Except.error "x", Except.error "x", ⟨none, Except.error "x", Except.error "x"⟩,
        Except.ok ⟨some "hello".toList⟩, Except.error "x", Except.error "netdown"⟩
      (some ⟨[], "a.docx".toList⟩) ⟨[]⟩).state.cache = ([] : Cache) :=
  upload_gemini_failure_keeps_cache _ _ _ (by decide)

/-- C10: every upload-handler transition preserves the invariant that
all cache keys are nonempty strings, because insertion happens only
after the empty-normalized-text guard has passed. -/
theorem upload_cache_keys_nonempty (env : UploadEnv) (file : Option UploadedFile)
    (st : ServerState) (hinv : ∀ p ∈ st.cache, p.1 ≠ ([] : Str)) :
    ∀ p ∈ (uploadHandler env file st).state.cache, p.1 ≠ ([] : Str) := by
  cases file with
  | none => exact hinv
  | some f =>
    simp only [uploadHandler]
    split
    · exact hinv
    · split
      · exact hinv
      · split
        · exact hinv
        · split
          · exact hinv
          · exact cacheSet_keys_ne hinv (by assumption)

/-- C10 witness: after an upload that caches the key "hello", the
invariant instantiated at that entry gives a nonempty key. -/
theorem upload_cache_keys_nonempty_witness :
    (("hello".toList, ("ART" : Artifact)) : Str × Artifact).1 ≠ ([] : Str) :=
  upload_cache_keys_nonempty
    ⟨Except.error "x", Except.error "x", ⟨none, Except.error "x", Except.error "x"⟩,
      Except.ok ⟨some "hello".toList⟩, Except.error "x", Except.ok (some "ART")⟩
    (some ⟨[], "a.docx".toList⟩) ⟨[]⟩ (by simp)
    ("hello".toList, "ART") (by decide)

/-- C1 counterexample: a `.pdf` upload whose scanned-PDF detection
throws writes its temporary file but never deletes it (0 deletions, not
exactly one), contrary to the claim that deletion happens regardless of
extraction failure. -/
theorem tempfile_not_deleted_on_throw :
    (uploadHandler
      ⟨Except.error "boom", Except.error "x", ⟨none, Except.error "x", Except.error "x"⟩,
        Except.error "x", Except.error "x", Except.ok none⟩
      (some ⟨[], "a.pdf".toList⟩) ⟨[]⟩).trace.tempWrites = 1 ∧
    (uploadHandler
      ⟨Except.error "boom", Except.error "x", ⟨none, Except.error "x", Except.error "x"⟩,
        Except.error "x", Except.error "x", Except.ok none⟩
      (some ⟨[], "a.pdf".toList⟩) ⟨[]⟩).trace.tempDeletes = 0 := by
  decide

/-- C1 amended: the temporary file of an upload is deleted exactly once
when the extractor dispatch returns normally; when the dispatch throws
(scanned-PDF detection error or generic-extractor rejection), the
handler answers 500 and the file is written but never deleted. -/
theorem tempfile_deletion_policy (env : UploadEnv) (f : UploadedFile) (st : ServerState) :
    ((∃ t, dispatchExtract env (jsToLower f.originalname) = Except.ok t) →
      (uploadHandler env (some f) st).trace.tempWrites = 1 ∧
      (uploadHandler env (some f) st).trace.tempDeletes = 1) ∧
    (∀ e, dispatchExtract env (jsToLower f.originalname) = Except.error e →
      (uploadHandler env (some f) st).trace.tempWrites = 1 ∧
      (uploadHandler env (some f) st).trace.tempDeletes = 0) := by
  constructor
  · rintro ⟨t, ht⟩
    simp only [uploadHandler, ht]
    split
    · exact ⟨by trivial, by trivial⟩
    · split
      · exact ⟨by trivial, by trivial⟩
      · split
        · exact ⟨by trivial, by trivial⟩
        · exact ⟨by trivial, by trivial⟩
  · intro e he
    simp only [uploadHandler, he]
    exact ⟨by trivial, by trivial⟩

/-- C1 amended witness: a DOCX upload whose extraction returns deletes
its temporary file exactly once. -/
theorem tempfile_deletion_policy_witness :
    (uploadHandler
      ⟨Except.error "x", Except.error "x", ⟨none, Except.error "x", Except.error "x"⟩,
        Except.ok ⟨some "hello".toList⟩, Except.error "x", Except.ok (some "ART")⟩
      (some ⟨[], "a.docx".toList⟩) ⟨[]⟩).trace.tempDeletes = 1 :=
  ((tempfile_deletion_policy _ _ _).1 ⟨"hello".toList, by decide⟩).2

/-- C5: if a first upload misses the cache and Gemini returns an
artifact, the handler caches it under the normalized text; a second
upload producing the same normalized text is answered with that cached
artifact, with no further Gemini call and the state unchanged. -/
theorem upload_cache_replay (env₁ env₂ : UploadEnv) (f₁ f₂ : UploadedFile)
    (st : ServerState) (t₁ t₂ : Str) (a : Artifact)
    (h1 : dispatchExtract env₁ (jsToLower f₁.originalname) = Except.ok t₁)
    (h2 : dispatchExtract env₂ (jsToLower f₂.originalname) = Except.ok t₂)
    (hsame : cleanText t₂ = cleanText t₁)
    (hne : cleanText t₁ ≠ [])
    (hmiss : cacheGet st.cache (cleanText t₁) = none)
    (hgem : generateSummaryWithGemini env₁.gemini = some a) :
    uploadHandler env₁ (some f₁) st =
      ⟨⟨200, RespBody.summary a⟩, ⟨cacheSet st.cache (cleanText t₁) a⟩, ⟨1, 1, 1, 1⟩⟩ ∧
    uploadHandler env₂ (some f₂) ⟨cacheSet st.cache (cleanText t₁) a⟩ =
      ⟨⟨200, RespBody.summary a⟩, ⟨cacheSet st.cache (cleanText t₁) a⟩, ⟨1, 1, 1, 0⟩⟩ := by
  constructor
  · simp only [uploadHandler, h1]
    rw [if_neg hne, hmiss, hgem]
  · simp only [uploadHandler, h2, hsame]
    rw [if_neg hne, cacheGet_cacheSet]

/-- C5 witness: two DOCX uploads both extracting "hello": the second is
served the first one's cached artifact without calling Gemini. -/
theorem upload_cache_replay_witness :
    uploadHandler
      ⟨Except.error "x", Except.error "x", ⟨none, Except.error "x", Except.error "x"⟩,
        Except.ok ⟨some "hello".toList⟩, Except.error "x", Except.error "netdown"⟩
      (some ⟨[], "b.docx".toList⟩) ⟨cacheSet [] "hello".toList "ART"⟩ =
      ⟨⟨200, RespBody.summary "ART"⟩, ⟨cacheSet [] "hello".toList "ART"⟩, ⟨1, 1, 1, 0⟩⟩ :=
  (upload_cache_replay
    ⟨Except.error "x", Except.error "x", ⟨none, Except.error "x", Except.error "x"⟩,
      Except.ok ⟨some "hello".toList⟩, Except.error "x", Except.ok (some "ART")⟩
    ⟨Except.error "x", Except.error "x", ⟨none, Except.error "x", Except.error "x"⟩,
      Except.ok ⟨some "hello".toList⟩, Except.error "x", Except.error "netdown"⟩
    ⟨[], "a.docx".toList⟩ ⟨[], "b.docx".toList⟩ ⟨[]⟩
    "hello".toList "hello".toList "ART"
    (by decide) (by decide) rfl (by decide) (by decide) (by decide)).2

/-- C2 counterexample: the normalizer is not idempotent: on "..." the
punctuation-spacing pass consumes overlapping pairs, so a second
normalization inserts one more space. -/
theorem cleanText_not_idempotent :
    cleanText (cleanText "...".toList) ≠ cleanText "...".toList := by
  decide

/-- C2 amended: the normalizer is idempotent on every string in which no
character of `[.,;:]` is immediately followed by another character of
that class (the counterexample "..." shows the restriction is needed). -/
theorem cleanText_idem_noAdjPunct (s : Str) (h : noAdjPunct s = true) :
    cleanText (cleanText s) = cleanText s := by
  obtain ⟨h2, h3, h4, h5, h6, h7, h8⟩ := cleanText_out_facts s h
  by_cases ht : cleanText s = []
  · rw [ht]
    rfl
  · rw [cleanText, if_neg ht]
    have hnl : noPair (fun c => decide (c = '\n')) (fun c => decide (c = '\n'))
        (cleanText s) = true := by
      refine noPair_mono ?_ ?_ h7 <;>
        · intro c hc
          simp only [decide_eq_true_eq] at hc
          subst hc
          decide
    rw [collapseNewlines_id hnl, spaceBetween_id h2, spaceBetween_id h3, spaceBetween_id h4,
        replaceBullets_id h5, spaceBetween_id h6]
    simp only [collapseWs]
    rw [collapseWsAux_id h7]
    exact h8

/-- C2 amended witness: a concrete adjacent-punctuation-free string on
which normalizing twice equals normalizing once. -/
theorem cleanText_idem_noAdjPunct_witness :
    noAdjPunct "a.b, c;dEf3  x".toList = true ∧
    cleanText (cleanText "a.b, c;dEf3  x".toList) = cleanText "a.b, c;dEf3  x".toList :=
  ⟨by decide, cleanText_idem_noAdjPunct _ (by decide)⟩
